import Mathlib

/-!
Verification of the in-memory HTTP response cache subsystem (internal/cache):
key derivation, LRU + TTL store semantics, conditional-request evaluation and
the file-watcher invalidation policy.  Go code is shallowly embedded: machine
integers (int, int64) become `Int`, `uint32` words become `Nat` reduced mod
2^32 at every operation, Go `time.Time` instants become `Int` nanosecond
values with `0` as the zero time, Go strings become Lean `String` (all inputs
relevant to the claims are ASCII, where Go's byte-wise operations and Lean's
char-wise operations agree), and the `map[string]*Entry` becomes an `AList`.
-/

namespace Vellum

/-! ## SHA-256 (Go crypto/sha256, used by GenerateKey)

Words are `Nat` values kept below 2^32 by explicit reduction. -/

/-- Reduce a natural number to a 32-bit word. -/
def w32 (n : Nat) : Nat := n % 4294967296

/-- Rotate a 32-bit word right by `n` bits. -/
def rotr (n x : Nat) : Nat := w32 ((x >>> n) ||| (x <<< (32 - n)))

/-- Bitwise choice: for each bit, pick from `y` where `x` has a 1, else from `z`. -/
def ch (x y z : Nat) : Nat := (x &&& y) ^^^ ((4294967295 ^^^ x) &&& z)

/-- Bitwise majority of three words. -/
def maj (x y z : Nat) : Nat := (x &&& y) ^^^ (x &&& z) ^^^ (y &&& z)

/-- Big sigma-0 compression function. -/
def bSig0 (x : Nat) : Nat := rotr 2 x ^^^ rotr 13 x ^^^ rotr 22 x

/-- Big sigma-1 compression function. -/
def bSig1 (x : Nat) : Nat := rotr 6 x ^^^ rotr 11 x ^^^ rotr 25 x

/-- Small sigma-0 message-schedule function. -/
def sSig0 (x : Nat) : Nat := rotr 7 x ^^^ rotr 18 x ^^^ (x >>> 3)

/-- Small sigma-1 message-schedule function. -/
def sSig1 (x : Nat) : Nat := rotr 17 x ^^^ rotr 19 x ^^^ (x >>> 10)

/-- The 64 SHA-256 round constants. -/
def shaK : List Nat :=
  [1116352408, 1899447441, 3049323471, 3921009573, 961987163, 1508970993,
   2453635748, 2870763221, 3624381080, 310598401, 607225278, 1426881987,
   1925078388, 2162078206, 2614888103, 3248222580, 3835390401, 4022224774,
   264347078, 604807628, 770255983, 1249150122, 1555081692, 1996064986,
   2554220882, 2821834349, 2952996808, 3210313671, 3336571891, 3584528711,
   113926993, 338241895, 666307205, 773529912, 1294757372, 1396182291,
   1695183700, 1986661051, 2177026350, 2456956037, 2730485921, 2820302411,
   3259730800, 3345764771, 3516065817, 3600352804, 4094571909, 275423344,
   430227734, 506948616, 659060556, 883997877, 958139571, 1322822218,
   1537002063, 1747873779, 1955562222, 2024104815, 2227730452, 2361852424,
   2428436474, 2756734187, 3204031479, 3329325298]

/-- The initial SHA-256 hash state. -/
def shaH0 : List Nat :=
  [1779033703, 3144134277, 1013904242, 2773480762, 1359893119, 2600822924,
   528734635, 1541459225]

/-- Big-endian byte decomposition of a number into `k` bytes. -/
def natToBytesBE : Nat → Nat → List Nat
  | 0, _ => []
  | k + 1, n => (n >>> (8 * k)) % 256 :: natToBytesBE k n

/-- Group a byte list into big-endian 32-bit words. -/
def bytesToWords : List Nat → List Nat
  | b0 :: b1 :: b2 :: b3 :: rest =>
      (b0 <<< 24 ||| b1 <<< 16 ||| b2 <<< 8 ||| b3) :: bytesToWords rest
  | _ => []

/-- Extend a 16-word message block by `n` further schedule words. -/
def scheduleAux : Nat → List Nat → List Nat
  | 0, ws => ws
  | n + 1, ws =>
      let i := ws.length
      let w := w32 (sSig1 (ws.getD (i - 2) 0) + ws.getD (i - 7) 0 +
                    sSig0 (ws.getD (i - 15) 0) + ws.getD (i - 16) 0)
      scheduleAux n (ws ++ [w])

/-- Full 64-word message schedule from one 16-word block. -/
def schedule (ws : List Nat) : List Nat := scheduleAux 48 ws

/-- One round of the SHA-256 compression loop over zipped (constant, word) pairs. -/
def compressWords :
    List (Nat × Nat) →
    Nat × Nat × Nat × Nat × Nat × Nat × Nat × Nat →
    Nat × Nat × Nat × Nat × Nat × Nat × Nat × Nat
  | [], st => st
  | (k, w) :: rest, (a, b, c, d, e, f, g, h) =>
      let t1 := w32 (h + bSig1 e + ch e f g + k + w)
      let t2 := w32 (bSig0 a + maj a b c)
      compressWords rest (w32 (t1 + t2), a, b, c, w32 (d + t1), e, f, g)

/-- Process a single 64-byte block, updating the 8-word hash state. -/
def processBlock (h : List Nat) (block : List Nat) : List Nat :=
  let ws := schedule (bytesToWords block)
  let st := compressWords (shaK.zip ws)
    (h.getD 0 0, h.getD 1 0, h.getD 2 0, h.getD 3 0,
     h.getD 4 0, h.getD 5 0, h.getD 6 0, h.getD 7 0)
  match st with
  | (a, b, c, d, e, f, g, hh) =>
      [w32 (h.getD 0 0 + a), w32 (h.getD 1 0 + b), w32 (h.getD 2 0 + c),
       w32 (h.getD 3 0 + d), w32 (h.getD 4 0 + e), w32 (h.getD 5 0 + f),
       w32 (h.getD 6 0 + g), w32 (h.getD 7 0 + hh)]

/-- SHA-256 padding: append 0x80, zeros to 56 mod 64, then the 64-bit bit length. -/
def shaPad (msg : List Nat) : List Nat :=
  msg ++ 128 :: List.replicate ((119 - msg.length % 64) % 64) 0 ++
    natToBytesBE 8 (msg.length * 8)

/-- Split a byte list into 64-byte blocks (fuel-based structural recursion). -/
def toBlocksAux : Nat → List Nat → List (List Nat)
  | 0, _ => []
  | n + 1, l => if l.isEmpty then [] else l.take 64 :: toBlocksAux n (l.drop 64)

/-- Split a padded message into its 64-byte blocks. -/
def toBlocks (l : List Nat) : List (List Nat) := toBlocksAux l.length l

/-- SHA-256 of a byte list, as the 32-byte digest. -/
def sha256 (msg : List Nat) : List Nat :=
  ((toBlocks (shaPad msg)).foldl processBlock shaH0).flatMap (natToBytesBE 4)

/-- Bytes of an ASCII string (for ASCII text, Go's UTF-8 bytes coincide with
the code points of the characters). -/
def strBytes (s : String) : List Nat := s.data.map Char.toNat

/-- Hex digit characters, lowercase, as produced by Go's `%x` formatting. -/
def hexDigit (n : Nat) : Char :=
  if n < 10 then Char.ofNat (48 + n) else Char.ofNat (87 + n)

/-- Two lowercase hex digits of one byte, as produced by Go's `%x` formatting
(the inner `% 16` is a no-op for genuine bytes `b < 256`). -/
def byteToHex (b : Nat) : List Char := [hexDigit (b / 16 % 16), hexDigit (b % 16)]

/-- Lowercase hex encoding of a byte list. -/
def hexOfBytes (bs : List Nat) : String := ⟨bs.flatMap byteToHex⟩

/-! ## Key derivation (cache.GenerateKey) -/

/-- Embedding of `KeyParams` (cache.go).  The Go field `FeatureFlags` is a
`map[string]bool`; Go map iteration order is unspecified, so the embedding
takes the iteration sequence the `for k, v := range` loop observes as an
explicit association list. -/
structure KeyParams where
  method : String
  normalizedPath : String
  absFilePath : String
  fileMTimeNs : Int
  template : String
  themeID : String
  featureFlags : List (String × Bool)
  acceptEncoding : String
  contentType : String
deriving DecidableEq

/-- Serialization of one feature flag, `fmt.Sprintf("%s:%t", k, v)`. -/
def flagStr (p : String × Bool) : String :=
  p.1 ++ ":" ++ (if p.2 then "true" else "false")

/-- The exact byte stream `GenerateKey` feeds to the hash, in source order:
each field followed by a `"|"` separator, the feature flags each followed by
`","`, with no sorting applied to the flags (the `flags` slice is hashed in
map-iteration order).  `strconv.FormatInt` base 10 agrees with `toString` on
`Int`. -/
def keyPreimage (params : KeyParams) : String :=
  params.method ++ "|" ++ params.normalizedPath ++ "|" ++ params.absFilePath ++ "|" ++
  toString params.fileMTimeNs ++ "|" ++ params.template ++ "|" ++ params.themeID ++ "|" ++
  String.join (params.featureFlags.map (fun p => flagStr p ++ ",")) ++
  "|" ++ params.acceptEncoding ++ "|" ++ params.contentType

/-- Embedding of `GenerateKey`: the lowercase-hex SHA-256 digest of the
serialized parameters (`fmt.Sprintf("%x", h.Sum(nil))`). -/
def GenerateKey (params : KeyParams) : String :=
  hexOfBytes (sha256 (strBytes (keyPreimage params)))

/-! ## Data model (cache.Entry, cache.Config, cache.Cache)

Go `time.Time` values are embedded as `Int` nanosecond instants with `0` as
the zero time (`IsZero`), and `time.Duration` as `Int` nanoseconds. -/

/-- Embedding of `cache.Entry`. -/
structure Entry where
  body : List Nat
  headers : List (String × List String)
  statusCode : Int
  contentType : String
  etag : String
  lastMod : Int
  size : Int
  createdAt : Int
  expiresAt : Int
  accessedAt : Int
  accessCount : Int
deriving DecidableEq

/-- Embedding of `Entry.IsExpired` evaluated at wall-clock instant `now`:
`time.Now().After(e.ExpiresAt)`. -/
def isExpired (now : Int) (e : Entry) : Bool := decide (e.expiresAt < now)

/-- Embedding of `Entry.SizeBytes`: body length plus header key/value lengths
plus convenience-field lengths plus the fixed 200-byte overhead estimate
(string lengths are byte counts; for the ASCII strings involved these agree
with character counts). -/
def sizeBytes (e : Entry) : Int :=
  (e.body.length : Int) +
  (e.headers.map (fun kv => (kv.1.length : Int) +
    (kv.2.map (fun v => (v.length : Int))).sum)).sum +
  (e.contentType.length : Int) + (e.etag.length : Int) + 200

/-- Embedding of `Entry.Touch` at instant `now`. -/
def touch (now : Int) (e : Entry) : Entry :=
  { e with accessedAt := now, accessCount := e.accessCount + 1 }

/-- Embedding of `cache.Config`. -/
structure Config where
  maxEntries : Int
  maxSizeBytes : Int
  defaultTTL : Int
  cleanupFreq : Int
deriving DecidableEq

/-- Embedding of `cache.DefaultConfig`. -/
def DefaultConfig : Config :=
  { maxEntries := 1000, maxSizeBytes := 100 * 1024 * 1024,
    defaultTTL := 3600000000000, cleanupFreq := 300000000000 }

/-- Embedding of `cache.Cache`: the entries map becomes an association list
with distinct keys, and the intrusive doubly-linked `lruList` is represented
by its key sequence from most- to least-recently used (head sentinel side
first); its `nodes` map holds exactly the keys on the list. -/
@[ext]
structure Cache where
  config : Config
  entries : AList (fun _ : String => Entry)
  lruList : List String
  totalSize : Int

/-- Number of entries in the store, `len(c.entries)`. -/
def entryCount (c : Cache) : Nat := c.entries.keys.length

/-! ## Eviction-list operations (lru.go) -/

/-- Embedding of `lruList.remove`: unlink the node for `key` (no-op when
absent). -/
def lruRemove (l : List String) (key : String) : List String := l.erase key

/-- Embedding of `lruList.addToFront`: remove the key if present, then link a
fresh node at the front. -/
def lruAddToFront (l : List String) (key : String) : List String :=
  key :: lruRemove l key

/-- Embedding of `lruList.moveToFront`: relink an existing node at the front;
no-op when the key is absent from the node map. -/
def lruMoveToFront (l : List String) (key : String) : List String :=
  if key ∈ l then key :: l.erase key else l

/-- Embedding of `lruList.removeOldest`: return `""` when only the sentinels
remain, otherwise unlink and return the key adjacent to the tail sentinel. -/
def lruRemoveOldest (l : List String) : String × List String :=
  match l.getLast? with
  | none => ("", l)
  | some k => (k, lruRemove l k)

/-! ## Store operations (cache.go) -/

/-- Embedding of `cache.New`: no validation of the configuration is
performed; the cleanup goroutine is modelled by explicit `cleanup` steps. -/
def New (config : Config) : Cache :=
  { config := config, entries := ∅, lruList := [], totalSize := 0 }

/-- Embedding of `Cache.removeEntry` (lock held by the caller). -/
def removeEntry (c : Cache) (key : String) : Cache :=
  match c.entries.lookup key with
  | some entry =>
      { c with totalSize := c.totalSize - sizeBytes entry,
               entries := c.entries.erase key,
               lruList := lruRemove c.lruList key }
  | none => c

/-- Loop guard of the count-eviction pass: `len(c.entries) > c.config.MaxEntries`. -/
def countCond (c : Cache) : Bool := decide ((entryCount c : Int) > c.config.maxEntries)

/-- Loop guard of the size-eviction pass:
`c.totalSize > c.config.MaxSizeBytes && len(c.entries) > 0`. -/
def sizeCond (c : Cache) : Bool :=
  decide (c.totalSize > c.config.maxSizeBytes) && decide (entryCount c > 0)

/-- Shared body of both eviction loops: pop the oldest key from the eviction
list and, when it is not the empty string, remove its store entry. -/
def evictStep (c : Cache) : Cache :=
  let r := lruRemoveOldest c.lruList
  let c' := { c with lruList := r.2 }
  if r.1 ≠ "" then removeEntry c' r.1 else c'

/-- Fuel-indexed while loop: iterate `step` while `cond` holds, for at most
`fuel` iterations. -/
def loopFuel : Nat → (Cache → Bool) → (Cache → Cache) → Cache → Cache
  | 0, _, _, c => c
  | n + 1, cond, step, c => if cond c then loopFuel n cond step (step c) else c

/-- Embedding of `Cache.evictIfNecessary`: the count pass then the size pass,
each a `for` loop with guard `countCond` / `sizeCond` and body `evictStep`.
The fuel `entryCount` bounds the number of productive iterations: under the
store invariant every productive step removes one entry, so the fuel is
sufficient whenever the Go loop terminates (see the termination theorems). -/
def evictIfNecessary (c : Cache) : Cache :=
  let c1 := loopFuel (entryCount c) countCond evictStep c
  loopFuel (entryCount c1) sizeCond evictStep c1

/-- Embedding of `Cache.Get` at wall-clock instant `now`: returns the entry
(touched) and the updated cache.  A present-but-expired entry is removed as a
side effect and reported as a miss. -/
def Get (now : Int) (key : String) (c : Cache) : Option Entry × Cache :=
  match c.entries.lookup key with
  | none => (none, c)
  | some entry =>
      if isExpired now entry then (none, removeEntry c key)
      else
        let e' := touch now entry
        (some e', { c with entries := c.entries.insert key e',
                           lruList := lruMoveToFront c.lruList key })

/-- The timestamp stamping `Set` applies before installing an entry: default
the expiration to `now + DefaultTTL` when unset, default the creation time to
`now` when unset, then touch. -/
def stampEntry (now ttl : Int) (e : Entry) : Entry :=
  let e1 := if e.expiresAt = 0 then { e with expiresAt := now + ttl } else e
  let e2 := if e1.createdAt = 0 then { e1 with createdAt := now } else e1
  touch now e2

/-- Embedding of `Cache.Set` at wall-clock instant `now`: subtract a replaced
entry's size, stamp zero `expiresAt`/`createdAt`, touch, install at the front
of the eviction list, then evict as necessary. -/
def Set (now : Int) (key : String) (entry : Entry) (c : Cache) : Cache :=
  let c :=
    match c.entries.lookup key with
    | some existing =>
        { c with totalSize := c.totalSize - sizeBytes existing,
                 lruList := lruRemove c.lruList key }
    | none => c
  let entry := stampEntry now c.config.defaultTTL entry
  let c := { c with entries := c.entries.insert key entry,
                    totalSize := c.totalSize + sizeBytes entry,
                    lruList := lruAddToFront c.lruList key }
  evictIfNecessary c

/-- Embedding of `Cache.Delete`: remove from both map and list, reporting
whether anything was removed. -/
def Delete (key : String) (c : Cache) : Bool × Cache :=
  match c.entries.lookup key with
  | some entry =>
      (true, { c with totalSize := c.totalSize - sizeBytes entry,
                      entries := c.entries.erase key,
                      lruList := lruRemove c.lruList key })
  | none => (false, c)

/-- Embedding of Go `strings.Contains(s, sub)` (byte-wise containment; for
the ASCII strings involved this agrees with character-wise containment). -/
def goContains (s sub : String) : Bool := decide (sub.data <:+: s.data)

/-- Embedding of `Cache.Invalidate`: collect the keys containing the pattern
(map iteration), remove them, and return how many were collected. -/
def Invalidate (pathPattern : String) (c : Cache) : Nat × Cache :=
  let keysToRemove := c.entries.keys.filter (fun key => goContains key pathPattern)
  (keysToRemove.length, keysToRemove.foldl removeEntry c)

/-- Modelling of Go `filepath.Abs`: the identity on cleaned absolute paths.
Every call site relevant to the claims (the watcher's `handleFileChange` and
`InvalidateForPath`) passes an already-absolute path. -/
def goAbs (p : String) : String := p

/-- Embedding of `Cache.InvalidateByFilePath`: collect the keys containing
the absolutized path or the raw path, remove them, and return the count. -/
def InvalidateByFilePath (filePath : String) (c : Cache) : Nat × Cache :=
  let absPath := goAbs filePath
  let keysToRemove := c.entries.keys.filter
    (fun key => goContains key absPath || goContains key filePath)
  (keysToRemove.length, keysToRemove.foldl removeEntry c)

/-- Embedding of `CacheStats`. -/
structure CacheStats where
  entries : Nat
  sizeBytes : Int
  maxEntries : Int
  maxSizeBytes : Int
deriving DecidableEq

/-- Embedding of `Cache.Stats`. -/
def Stats (c : Cache) : CacheStats :=
  { entries := entryCount c, sizeBytes := c.totalSize,
    maxEntries := c.config.maxEntries, maxSizeBytes := c.config.maxSizeBytes }

/-- Embedding of `Cache.Clear`: fresh map, fresh list, zero size counter. -/
def Clear (c : Cache) : Cache :=
  { c with entries := ∅, lruList := [], totalSize := 0 }

/-- Embedding of `Cache.cleanup` (one janitor sweep) at instant `now`:
collect the expired keys, then remove them. -/
def cleanup (now : Int) (c : Cache) : Cache :=
  let expiredKeys := c.entries.keys.filter (fun key =>
    match c.entries.lookup key with
    | some e => decide (e.expiresAt < now)
    | none => false)
  expiredKeys.foldl removeEntry c

/-! ## Conditional-request evaluation (cache.go) -/

/-- Request model for the conditional-request evaluator.  `ifNoneMatch` is
the raw `If-None-Match` header value (Go's `Header.Get` returns `""` when
absent).  `ifModifiedSince` is `some t` when the `If-Modified-Since` header
is present and `http.ParseTime` succeeds with instant `t`, and `none` when
the header is absent or unparseable (both cases fall through to `return
false` in the source). -/
structure CondRequest where
  ifNoneMatch : String
  ifModifiedSince : Option Int
deriving DecidableEq

/-- Embedding of `Entry.SupportsConditionalRequests`. -/
def SupportsConditionalRequests (e : Entry) : Bool :=
  decide (e.etag ≠ "") || decide (e.lastMod ≠ 0)

/-- Embedding of Go `strings.Split(s, ",")` on character lists: split at
every separator occurrence; the empty input yields one empty field. -/
def splitOnCharAux (sep : Char) : List Char → List Char → List (List Char)
  | [], acc => [acc.reverse]
  | c :: rest, acc =>
      if c = sep then acc.reverse :: splitOnCharAux sep rest []
      else splitOnCharAux sep rest (c :: acc)

/-- Split a character list on a separator character. -/
def splitOnChar (sep : Char) (l : List Char) : List (List Char) :=
  splitOnCharAux sep l []

/-- ASCII whitespace, as trimmed by Go `strings.TrimSpace` (the claims only
involve ASCII header values). -/
def isSpaceChar (c : Char) : Bool :=
  decide (c = ' ') || decide (c = '\t') || decide (c = '\n') || decide (c = '\r')

/-- Embedding of Go `strings.TrimSpace` on character lists. -/
def trimChars (l : List Char) : List Char :=
  ((l.dropWhile isSpaceChar).reverse.dropWhile isSpaceChar).reverse

/-- The If-None-Match scan of `MatchesConditions`: split the header on
commas, trim each validator, and compare it against `*` and the entry's
ETag (exact, case-sensitive comparison). -/
def inmMatches (etag inm : String) : Bool :=
  (splitOnChar ',' inm.data).any
    (fun s => decide (trimChars s = ['*']) || decide (trimChars s = etag.data))

/-- Embedding of `Entry.MatchesConditions`: the If-None-Match block returns
true on a validator match; otherwise control falls through to the
If-Modified-Since block, which (when the header parses and `LastMod` is
non-zero) returns `!e.LastMod.After(since)`; otherwise false. -/
def MatchesConditions (e : Entry) (r : CondRequest) : Bool :=
  if r.ifNoneMatch ≠ "" ∧ e.etag ≠ "" ∧ inmMatches e.etag r.ifNoneMatch then true
  else
    match r.ifModifiedSince with
    | some since => decide (e.lastMod ≠ 0) && decide (¬ since < e.lastMod)
    | none => false

/-! ## Invalidation watcher (FileWatcher.handleFileChange) -/

/-- One store operation the watcher can perform while handling a change. -/
inductive WatchAction where
  | invalidateByFilePath (p : String)
  | invalidatePattern (pat : String)
  | clearAll
deriving DecidableEq

/-- Embedding of `FileWatcher.handleFileChange` as the trace of store
operations it performs, in source order: first `InvalidateByFilePath` on the
absolutized path, then the blog-marker invalidations, then the page-marker
invalidation, and finally — checked last — the theme/template branch, which
clears the whole store and returns. -/
def handleFileChange (filePath : String) : List WatchAction :=
  let absPath := goAbs filePath
  WatchAction.invalidateByFilePath absPath ::
  (if goContains absPath "blog" then
      [WatchAction.invalidatePattern "/blog", WatchAction.invalidatePattern "/",
       WatchAction.invalidatePattern "rss:", WatchAction.invalidatePattern "sitemap:"]
    else []) ++
  (if goContains absPath "pages" then [WatchAction.invalidatePattern "sitemap:"] else []) ++
  (if goContains absPath "themes" || goContains absPath "templates" then
      [WatchAction.clearAll]
    else [])

/-- Effect of one watcher action on the store. -/
def applyAction (c : Cache) (a : WatchAction) : Cache :=
  match a with
  | WatchAction.invalidateByFilePath p => (InvalidateByFilePath p c).2
  | WatchAction.invalidatePattern pat => (Invalidate pat c).2
  | WatchAction.clearAll => Clear c

/-- Run a trace of watcher actions against the store. -/
def runActions (c : Cache) (as : List WatchAction) : Cache :=
  as.foldl applyAction c

/-! ## Analysis definitions: store invariant, reachability, loop exits -/

/-- The store invariant relating the entries map and the eviction list: they
hold exactly the same keys, the recency list is duplicate-free, and no stored
key is the empty string (which `removeOldest` uses as its empty-list
sentinel). -/
def Inv (c : Cache) : Prop :=
  (∀ k, k ∈ c.entries ↔ k ∈ c.lruList) ∧ c.lruList.Nodup ∧ "" ∉ c.lruList

/-- Cache states reachable from a freshly constructed cache by the public
operations and the janitor sweep, where every key handed to `Set` is
non-empty. -/
inductive Reach : Cache → Prop
  | new : ∀ cfg, Reach (New cfg)
  | set : ∀ now k e c, Reach c → k ≠ "" → Reach (Set now k e c)
  | get : ∀ now k c, Reach c → Reach (Get now k c).2
  | del : ∀ k c, Reach c → Reach (Delete k c).2
  | inval : ∀ pat c, Reach c → Reach (Invalidate pat c).2
  | invalFile : ∀ fp c, Reach c → Reach (InvalidateByFilePath fp c).2
  | clearStore : ∀ c, Reach c → Reach (Clear c)
  | sweep : ∀ now c, Reach c → Reach (cleanup now c)

/-- The count-eviction `for` loop reaches its exit condition after finitely
many body iterations. -/
def CountLoopExits (c : Cache) : Prop :=
  ∃ n, countCond (evictStep^[n] c) = false

/-- The size-eviction `for` loop reaches its exit condition after finitely
many body iterations. -/
def SizeLoopExits (c : Cache) : Prop :=
  ∃ n, sizeCond (evictStep^[n] c) = false

/-- Fold `Set` over a sequence of keys, inserting the same template entry at
a fixed instant. -/
def setAll (now : Int) (e : Entry) (ks : List String) (c : Cache) : Cache :=
  ks.foldl (fun c k => Set now k e c) c

/-- The association list mapping each key of `l` to the fixed entry `v`. -/
def alistOf (v : Entry) : List String → AList (fun _ : String => Entry)
  | [] => ∅
  | k :: t => (alistOf v t).insert k v

/-- The cache state reached by inserting the distinct fresh keys `ks`, in
order, into an empty store under configuration `cfg`, while neither capacity
limit binds: every key maps to the stamped template entry, the recency list
holds the keys newest-first, and the size counter holds one stamped-entry
size per key. -/
def bulkState (cfg : Config) (now : Int) (e : Entry) (ks : List String) : Cache :=
  { config := cfg,
    entries := alistOf (stampEntry now cfg.defaultTTL e) ks.reverse,
    lruList := ks.reverse,
    totalSize := (ks.length : Int) * sizeBytes (stampEntry now cfg.defaultTTL e) }

/-! ## Concrete fixtures used to instantiate the theorems -/

/-- Key parameters mirroring `TestGenerateKey` in cache_test.go. -/
def p0 : KeyParams :=
  { method := "GET", normalizedPath := "/blog/test", absFilePath := "/path/to/file.md",
    fileMTimeNs := 123456789, template := "blog.jet", themeID := "default",
    featureFlags := [("mermaid", true)], acceptEncoding := "gzip",
    contentType := "text/html" }

/-- Key parameters whose feature-flag map holds `a ↦ true` and `b ↦ true`,
iterated in the order `a, b`. -/
def p2a : KeyParams :=
  { method := "GET", normalizedPath := "/", absFilePath := "/f.md",
    fileMTimeNs := 1, template := "t", themeID := "d",
    featureFlags := [("a", true), ("b", true)], acceptEncoding := "gzip",
    contentType := "text/html" }

/-- The same feature-flag map as `p2a`, iterated in the order `b, a`. -/
def p2b : KeyParams :=
  { p2a with featureFlags := [("b", true), ("a", true)] }

/-- A minimal stored entry (no body, no headers). -/
def e0 : Entry :=
  { body := [], headers := [], statusCode := 200, contentType := "", etag := "",
    lastMod := 0, size := 0, createdAt := 1, expiresAt := 10, accessedAt := 1,
    accessCount := 1 }

/-- A cache holding exactly one entry, stored under a key derived by
`GenerateKey` from `p0` (whose `AbsFilePath` is `"/path/to/file.md"`). -/
def c1fix : Cache :=
  { config := DefaultConfig, entries := AList.insert (GenerateKey p0) e0 ∅,
    lruList := [GenerateKey p0], totalSize := sizeBytes e0 }

/-- An entry with ETag `"abc123"` and a non-zero Last-Modified instant. -/
def e3fix : Entry :=
  { e0 with etag := "\"abc123\"", lastMod := 100 }

/-- A request carrying a non-matching `If-None-Match` together with an
`If-Modified-Since` that parses to the entry's Last-Modified instant. -/
def r3fix : CondRequest :=
  { ifNoneMatch := "\"different\"", ifModifiedSince := some 100 }

/-- A configuration with a nonsensical negative entry limit. -/
def cfgNeg : Config :=
  { maxEntries := -1, maxSizeBytes := -5, defaultTTL := 0, cleanupFreq := 0 }

/-- A cache holding one entry under key `"k"` that expires at instant 3. -/
def c7fix : Cache :=
  { config := DefaultConfig, entries := AList.insert "k" { e0 with expiresAt := 3 } ∅,
    lruList := ["k"], totalSize := sizeBytes e0 }

/-- A small configuration admitting a single entry. -/
def cfg1 : Config :=
  { maxEntries := 1, maxSizeBytes := 1000000, defaultTTL := 1000, cleanupFreq := 1000 }

/-- A small configuration admitting two entries. -/
def cfg2 : Config :=
  { maxEntries := 2, maxSizeBytes := 1000000, defaultTTL := 1000, cleanupFreq := 1000 }

/-- A template entry with unset timestamps, as the render layer hands to
`Set`. -/
def eT : Entry :=
  { body := [104, 105], headers := [], statusCode := 200, contentType := "",
    etag := "", lastMod := 0, size := 2, createdAt := 0, expiresAt := 0,
    accessedAt := 0, accessCount := 0 }

/-- The cache produced by inserting the distinct keys `""` and `"x"` (in that
order) into an empty store with a one-entry limit. -/
def c5bad : Cache := Set 0 "x" eT (Set 0 "" eT (New cfg1))

/-! ## Helper lemmas -/

/-- SHA-256 test vector: digest of "abc" (checked against the published FIPS
180-2 value), validating the embedding of Go's crypto/sha256. -/
theorem sha256_abc_vector :
    hexOfBytes (sha256 (strBytes "abc")) =
      "ba7816bf8f01cfea414140de5dae2223b00361a396177a9cb410ff61f20015ad" := by
  decide

theorem mem_hexOfBytes {c : Char} {bs : List Nat} (h : c ∈ (hexOfBytes bs).data) :
    ∃ m, m < 16 ∧ c = hexDigit m := by
  simp only [hexOfBytes, List.mem_flatMap] at h
  obtain ⟨b, _, hb⟩ := h
  simp only [byteToHex, List.mem_cons, List.mem_singleton, List.not_mem_nil] at hb
  rcases hb with h1 | h1 | h1
  · exact ⟨b / 16 % 16, Nat.mod_lt _ (by omega), h1⟩
  · exact ⟨b % 16, Nat.mod_lt _ (by omega), h1⟩
  · cases h1

theorem hexDigit_ne_slash {m : Nat} (hm : m < 16) : hexDigit m ≠ '/' := by
  interval_cases m <;> decide

/-- Any string containing the character `/` is never a substring of a
`GenerateKey` output, which consists of lowercase hex digits only. -/
theorem goContains_generateKey_eq_false (params : KeyParams) (fp : String)
    (hfp : '/' ∈ fp.data) : goContains (GenerateKey params) fp = false := by
  simp only [goContains, decide_eq_false_iff_not]
  intro hinf
  have hsub : '/' ∈ (GenerateKey params).data := hinf.subset hfp
  obtain ⟨m, hm, hc⟩ := mem_hexOfBytes
    (show '/' ∈ (hexOfBytes (sha256 (strBytes (keyPreimage params)))).data from hsub)
  exact hexDigit_ne_slash hm hc.symm

/-- Removing a present key shortens the key list by exactly one. -/
theorem length_keys_erase_add_one {c : Cache} {key : String}
    (h : key ∈ c.entries.keys) :
    ((c.entries.erase key).keys.length + 1 = c.entries.keys.length) := by
  rw [AList.keys_erase]
  have := List.length_erase_of_mem h
  have hpos : 0 < c.entries.keys.length := List.length_pos_of_mem h
  omega

/-! ## Claim C1 -/

/-- Claim C1: a cache key produced by `GenerateKey` is an opaque hex digest
and never contains the source file's absolute path, so `InvalidateByFilePath`
removes nothing from a cache whose keys are all derived: it returns count 0
and leaves the cache unchanged, contradicting the claim that every derived
entry is removed and counted. -/
theorem C1_invalidateByFilePath_removes_no_derived_entry (c : Cache) (fp : String)
    (hfp : '/' ∈ fp.data)
    (hkeys : ∀ k ∈ c.entries.keys, ∃ p : KeyParams, k = GenerateKey p) :
    InvalidateByFilePath fp c = (0, c) := by
  have hfilter : c.entries.keys.filter
      (fun key => goContains key (goAbs fp) || goContains key fp) = [] := by
    rw [List.filter_eq_nil_iff]
    intro k hk
    obtain ⟨p, rfl⟩ := hkeys k hk
    simp [goAbs, goContains_generateKey_eq_false p fp hfp]
  simp [InvalidateByFilePath, hfilter]

/-- Witness for C1: the concrete single-entry cache `c1fix` with the file
path from the test suite. -/
theorem C1_witness :
    ('/' ∈ "/path/to/file.md".data) ∧
      InvalidateByFilePath "/path/to/file.md" c1fix = (0, c1fix) := by
  refine ⟨by decide, C1_invalidateByFilePath_removes_no_derived_entry c1fix _ (by decide) ?_⟩
  intro k hk
  simp only [c1fix, AList.keys_insert, AList.keys_empty, List.erase_nil,
    List.mem_singleton] at hk
  exact ⟨p0, hk⟩

/-! ## Claim C2 -/

/-- Claim C2: `GenerateKey` is not deterministic in the set of feature flags.
The two parameter records `p2a` and `p2b` carry exactly the same
name-to-boolean pairs (one list is a permutation of the other) and agree on
every other field, yet the derived keys differ, because the code hashes the
flags in map-iteration order without the sort its own comment promises. -/
theorem C2_generateKey_depends_on_flag_order :
    List.Perm p2a.featureFlags p2b.featureFlags ∧
      p2a.method = p2b.method ∧ p2a.normalizedPath = p2b.normalizedPath ∧
      p2a.absFilePath = p2b.absFilePath ∧ p2a.fileMTimeNs = p2b.fileMTimeNs ∧
      p2a.template = p2b.template ∧ p2a.themeID = p2b.themeID ∧
      p2a.acceptEncoding = p2b.acceptEncoding ∧ p2a.contentType = p2b.contentType ∧
      GenerateKey p2a ≠ GenerateKey p2b := by
  refine ⟨by decide, rfl, rfl, rfl, rfl, rfl, rfl, rfl, rfl, by decide⟩

/-! ## Claim C3 -/

/-- Claim C3 (amended): when the If-None-Match header is present and the
entry's ETag is non-empty but no listed validator matches, `MatchesConditions`
does not return no-match; it falls through and is decided by the
If-Modified-Since comparison. -/
theorem C3_inm_failure_falls_through_to_ims (e : Entry) (r : CondRequest)
    (hetag : e.etag ≠ "") (hinm : r.ifNoneMatch ≠ "")
    (hno : inmMatches e.etag r.ifNoneMatch = false) :
    MatchesConditions e r =
      (match r.ifModifiedSince with
       | some since => decide (e.lastMod ≠ 0) && decide (¬ since < e.lastMod)
       | none => false) := by
  rw [MatchesConditions, if_neg]
  rintro ⟨-, -, hm⟩
  rw [hno] at hm
  cases hm

/-- Witness for C3 (amended): the fixture entry and request, where the
If-Modified-Since comparison alone decides the outcome. -/
theorem C3_witness :
    (e3fix.etag ≠ "") ∧ (r3fix.ifNoneMatch ≠ "") ∧
      inmMatches e3fix.etag r3fix.ifNoneMatch = false ∧
      MatchesConditions e3fix r3fix =
        (match r3fix.ifModifiedSince with
         | some since => decide (e3fix.lastMod ≠ 0) && decide (¬ since < e3fix.lastMod)
         | none => false) :=
  ⟨by decide, by decide, by decide,
    C3_inm_failure_falls_through_to_ims e3fix r3fix (by decide) (by decide) (by decide)⟩

/-- Counterexample for C3 as stated: entry `e3fix` has a non-empty ETag; the
request `r3fix` carries an If-None-Match list in which no validator is `*`
and none equals the ETag, together with an If-Modified-Since that parses and
is not before the entry's Last-Modified — and a match IS declared, so the
result is not decided by the If-None-Match comparison alone. -/
theorem C3_counterexample :
    (e3fix.etag ≠ "") ∧ (r3fix.ifNoneMatch ≠ "") ∧
      inmMatches e3fix.etag r3fix.ifNoneMatch = false ∧
      r3fix.ifModifiedSince = some 100 ∧ ¬ (100 : Int) < e3fix.lastMod ∧
      MatchesConditions e3fix r3fix = true := by
  decide

/-! ## Claim C4 -/

/-- Claim C4 (amended): `New` performs no validation whatsoever — every
configuration, however nonsensical, is accepted and stored verbatim in a
freshly constructed empty cache; no configuration error is surfaced at
construction. -/
theorem C4_new_accepts_any_config (config : Config) :
    New config = { config := config, entries := ∅, lruList := [], totalSize := 0 } :=
  rfl

/-- Counterexample for C4 as stated: constructing a cache with a negative
max-entries count (and a negative size limit) succeeds and returns an
ordinary empty cache that records the nonsensical limits unchanged — no
error is surfaced. -/
theorem C4_counterexample :
    cfgNeg.maxEntries = -1 ∧
      New cfgNeg = { config := cfgNeg, entries := ∅, lruList := [], totalSize := 0 } ∧
      (Stats (New cfgNeg)).maxEntries = -1 :=
  ⟨rfl, rfl, rfl⟩

/-! ## Claim C7 -/

/-- Claim C7: `Get` misses exactly when the key is absent or the stored
entry's `ExpiresAt` is before the wall-clock instant of the call, and a miss
due to expiration deletes the entry: afterwards the lookup fails, the entry
count has dropped by one, and the total size no longer includes the entry's
bytes. -/
theorem C7_get_miss_iff_absent_or_expired (now : Int) (key : String) (c : Cache) :
    ((Get now key c).1 = none ↔
      c.entries.lookup key = none ∨
        ∃ e, c.entries.lookup key = some e ∧ e.expiresAt < now) ∧
    (∀ e, c.entries.lookup key = some e → e.expiresAt < now →
      (Get now key c).2.entries.lookup key = none ∧
      entryCount (Get now key c).2 + 1 = entryCount c ∧
      (Get now key c).2.totalSize = c.totalSize - sizeBytes e) := by
  rcases h : c.entries.lookup key with - | e
  · exact ⟨⟨fun _ => Or.inl rfl, fun _ => by simp [Get, h]⟩, fun e he => by cases he⟩
  · have hmem : key ∈ c.entries.keys := by
      have : key ∈ c.entries := AList.lookup_isSome.mp (by rw [h]; rfl)
      exact AList.mem_keys.mp this
    by_cases hexp : e.expiresAt < now
    · have hbr : Get now key c = (none, removeEntry c key) := by
        simp [Get, h, isExpired, hexp]
      rw [hbr]
      refine ⟨⟨fun _ => Or.inr ⟨e, rfl, hexp⟩, fun _ => rfl⟩, fun e' he' _ => ?_⟩
      cases he'
      have hrm : removeEntry c key =
          { c with totalSize := c.totalSize - sizeBytes e,
                   entries := c.entries.erase key,
                   lruList := lruRemove c.lruList key } := by
        simp [removeEntry, h]
      rw [hrm]
      exact ⟨AList.lookup_erase key c.entries,
        length_keys_erase_add_one hmem, rfl⟩
    · have hbr : (Get now key c).1 = some (touch now e) := by
        simp [Get, h, isExpired, hexp]
      refine ⟨⟨fun hn => ?_, fun hOr => ?_⟩, fun e' he' hexp' => ?_⟩
      · rw [hbr] at hn; cases hn
      · rcases hOr with hn | ⟨e', he', hexp'⟩
        · cases hn
        · cases he'; exact absurd hexp' hexp
      · cases he'; exact absurd hexp' hexp

/-- Witness for C7: the fixture cache `c7fix`, read at instant 5 when its
single entry (expiring at instant 3) is stale: the read misses and deletes. -/
theorem C7_witness :
    (Get 5 "k" c7fix).1 = none ∧
      (Get 5 "k" c7fix).2.entries.lookup "k" = none ∧
      entryCount (Get 5 "k" c7fix).2 + 1 = entryCount c7fix := by
  have hlk : c7fix.entries.lookup "k" = some { e0 with expiresAt := 3 } :=
    AList.lookup_insert ∅
  have h := C7_get_miss_iff_absent_or_expired 5 "k" c7fix
  refine ⟨h.1.mpr (Or.inr ⟨_, hlk, by decide⟩), ?_, ?_⟩
  · exact (h.2 _ hlk (by decide)).1
  · exact (h.2 _ hlk (by decide)).2.1

/-! ## Claim C8 -/

/-- Claim C8 (amended): when the changed path contains a theme/template-root
marker the watcher does clear the entire store and stop processing the path —
afterwards the entry count is 0 regardless of what was cached — but the
theme/template branch is checked last, not first: the per-file invalidation
(and any blog/page invalidation) has already been attempted before the store
is cleared, as the head of the action trace shows. -/
theorem C8_theme_change_clears_store_after_file_invalidation (c : Cache) (p : String)
    (hmark : (goContains (goAbs p) "themes" || goContains (goAbs p) "templates") = true) :
    entryCount (runActions c (handleFileChange p)) = 0 ∧
      (runActions c (handleFileChange p)).entries = ∅ ∧
      (handleFileChange p).getLast? = some WatchAction.clearAll ∧
      (handleFileChange p).head? = some (WatchAction.invalidateByFilePath (goAbs p)) := by
  have hshape : handleFileChange p =
      (WatchAction.invalidateByFilePath (goAbs p) ::
        ((if goContains (goAbs p) "blog" then
            [WatchAction.invalidatePattern "/blog", WatchAction.invalidatePattern "/",
             WatchAction.invalidatePattern "rss:", WatchAction.invalidatePattern "sitemap:"]
          else []) ++
         (if goContains (goAbs p) "pages" then [WatchAction.invalidatePattern "sitemap:"]
          else []))) ++ [WatchAction.clearAll] := by
    rw [handleFileChange, hmark]
    simp
  rw [hshape]
  refine ⟨?_, ?_, by rw [List.getLast?_concat], rfl⟩
  · rw [runActions, List.foldl_append]
    simp [applyAction, Clear, entryCount]
  · rw [runActions, List.foldl_append]
    simp [applyAction, Clear]

/-- Witness for C8 (amended): a concrete path under a theme root against the
fixture cache. -/
theorem C8_witness :
    entryCount (runActions c1fix (handleFileChange "/site/themes/a.tmpl")) = 0 ∧
      (handleFileChange "/site/themes/a.tmpl").head? =
        some (WatchAction.invalidateByFilePath (goAbs "/site/themes/a.tmpl")) := by
  have h := C8_theme_change_clears_store_after_file_invalidation c1fix
    "/site/themes/a.tmpl" (by decide)
  exact ⟨h.1, h.2.2.2⟩

/-- Counterexample for C8 as stated: for the path `"/site/themes/a.tmpl"`,
which contains the theme-root marker, the watcher's action trace is a
per-file invalidation followed by the clear — the theme branch is evaluated
last and finer-grained invalidation IS attempted first, so the trace is not
the bare clear the claim describes. -/
theorem C8_counterexample :
    goContains (goAbs "/site/themes/a.tmpl") "themes" = true ∧
      handleFileChange "/site/themes/a.tmpl" =
        [WatchAction.invalidateByFilePath "/site/themes/a.tmpl", WatchAction.clearAll] ∧
      (handleFileChange "/site/themes/a.tmpl").head? ≠ some WatchAction.clearAll := by
  decide

/-! ## Invariant preservation -/

theorem sizeBytes_nonneg (e : Entry) : 0 ≤ sizeBytes e := by
  have h1 : (0 : Int) ≤ (e.headers.map (fun kv => (kv.1.length : Int) +
      (kv.2.map (fun v => (v.length : Int))).sum)).sum := by
    apply List.sum_nonneg
    intro x hx
    simp only [List.mem_map] at hx
    obtain ⟨kv, -, rfl⟩ := hx
    have : (0 : Int) ≤ (kv.2.map (fun v => (v.length : Int))).sum := by
      apply List.sum_nonneg
      intro y hy
      simp only [List.mem_map] at hy
      obtain ⟨v, -, rfl⟩ := hy
      exact Int.natCast_nonneg _
    have : (0 : Int) ≤ (kv.1.length : Int) := Int.natCast_nonneg _
    omega
  have h2 : (0 : Int) ≤ (e.body.length : Int) := Int.natCast_nonneg _
  have h3 : (0 : Int) ≤ (e.contentType.length : Int) := Int.natCast_nonneg _
  have h4 : (0 : Int) ≤ (e.etag.length : Int) := Int.natCast_nonneg _
  rw [sizeBytes]
  omega

/-- An entry's accounted size depends only on its body, headers, content
type and ETag. -/
theorem sizeBytes_congr {a b : Entry} (hb : a.body = b.body)
    (hh : a.headers = b.headers) (hc : a.contentType = b.contentType)
    (he : a.etag = b.etag) : sizeBytes a = sizeBytes b := by
  rw [sizeBytes, sizeBytes, hb, hh, hc, he]

/-- Touching and stamping do not change an entry's accounted size. -/
theorem sizeBytes_stampEntry (now ttl : Int) (e : Entry) :
    sizeBytes (stampEntry now ttl e) = sizeBytes e := by
  apply sizeBytes_congr <;>
    · simp only [stampEntry, touch]
      split <;> split <;> rfl

/-- Erasing a key from both structures preserves the store invariant,
whatever happens to the size counter. -/
theorem Inv_erase_both {c : Cache} (h : Inv c) (key : String) (ts : Int) :
    Inv { config := c.config, entries := c.entries.erase key,
          lruList := c.lruList.erase key, totalSize := ts } := by
  obtain ⟨hmem, hnd, hne⟩ := h
  refine ⟨fun a => ?_, hnd.erase key, fun hc => hne ((c.lruList.erase_sublist key).subset hc)⟩
  show a ∈ c.entries.erase key ↔ _
  rw [AList.mem_erase, List.Nodup.mem_erase_iff hnd]
  exact and_congr_right fun _ => hmem a

theorem Inv_removeEntry {c : Cache} (h : Inv c) (key : String) :
    Inv (removeEntry c key) := by
  rcases hlk : c.entries.lookup key with - | e
  · simpa [removeEntry, hlk] using h
  · have he : removeEntry c key =
        { config := c.config, entries := c.entries.erase key,
          lruList := c.lruList.erase key, totalSize := c.totalSize - sizeBytes e } := by
      simp [removeEntry, hlk, lruRemove]
    rw [he]
    exact Inv_erase_both h key _

/-- Inserting at the front of both structures preserves the store invariant,
for a non-empty key, whether or not the key was first unlinked. -/
theorem Inv_insert_front {c : Cache} (h : Inv c) {k : String} (hk : k ≠ "")
    (e' : Entry) (ts : Int) (l' : List String)
    (hl : l' = c.lruList ∨ l' = c.lruList.erase k) :
    Inv { config := c.config, entries := c.entries.insert k e',
          lruList := k :: l'.erase k, totalSize := ts } := by
  obtain ⟨hmem, hnd, hne⟩ := h
  have hle : l'.erase k = c.lruList.erase k := by
    rcases hl with rfl | rfl
    · rfl
    · exact List.erase_of_not_mem fun hmm => ((hnd.mem_erase_iff).mp hmm).1 rfl
  rw [hle]
  refine ⟨fun a => ?_, ?_, ?_⟩
  · show a ∈ c.entries.insert k e' ↔ _
    rw [AList.mem_insert, List.mem_cons, List.Nodup.mem_erase_iff hnd]
    constructor
    · rintro (rfl | ha)
      · exact Or.inl rfl
      · by_cases hak : a = k
        · exact Or.inl hak
        · exact Or.inr ⟨hak, (hmem a).mp ha⟩
    · rintro (rfl | ⟨-, ha⟩)
      · exact Or.inl rfl
      · exact Or.inr ((hmem a).mpr ha)
  · exact List.Nodup.cons (fun hmm => ((hnd.mem_erase_iff).mp hmm).1 rfl) (hnd.erase k)
  · intro hc
    rcases List.mem_cons.mp hc with h1 | h1
    · exact hk h1.symm
    · exact hne ((c.lruList.erase_sublist k).subset h1)

/-- The key reported by `getLast?` is a member of the list. -/
theorem mem_of_getLast?_eq_some {l : List String} {k : String}
    (h : l.getLast? = some k) : k ∈ l := by
  obtain ⟨hne, rfl⟩ := List.mem_getLast?_eq_getLast (show k ∈ l.getLast? by rw [h]; rfl)
  exact List.getLast_mem hne

/-- Under the invariant, a non-empty eviction list makes `evictStep` pop the
tail key, which is a real non-empty stored key, and remove it from both
structures. -/
theorem evictStep_spec {c : Cache} {k : String} (h : Inv c)
    (hl : c.lruList.getLast? = some k) :
    ∃ e, c.entries.lookup k = some e ∧ k ≠ "" ∧
      evictStep c = { config := c.config, entries := c.entries.erase k,
                      lruList := c.lruList.erase k,
                      totalSize := c.totalSize - sizeBytes e } := by
  obtain ⟨hmem, hnd, hne⟩ := h
  have hkl : k ∈ c.lruList := mem_of_getLast?_eq_some hl
  have hk : k ≠ "" := fun heq => hne (heq ▸ hkl)
  have hkm : k ∈ c.entries := (hmem k).mpr hkl
  obtain ⟨e, he⟩ := Option.isSome_iff_exists.mp (AList.lookup_isSome.mpr hkm)
  refine ⟨e, he, hk, ?_⟩
  have hro : lruRemoveOldest c.lruList = (k, c.lruList.erase k) := by
    rw [lruRemoveOldest, hl]; rfl
  have herase2 : (c.lruList.erase k).erase k = c.lruList.erase k :=
    List.erase_of_not_mem fun hmm => ((hnd.mem_erase_iff).mp hmm).1 rfl
  have hstep1 : evictStep c = removeEntry { c with lruList := c.lruList.erase k } k := by
    simp [evictStep, hro, hk]
  rw [hstep1]
  simp [removeEntry, he, lruRemove, herase2]

theorem Inv_evictStep {c : Cache} (h : Inv c) : Inv (evictStep c) := by
  rcases hl : c.lruList.getLast? with - | k
  · have : evictStep c = c := by
      simp [evictStep, lruRemoveOldest, hl]
    rw [this]; exact h
  · obtain ⟨e, -, -, hstep⟩ := evictStep_spec h hl
    rw [hstep]
    exact Inv_erase_both h k _

theorem entryCount_evictStep {c : Cache} (h : Inv c) (hl : c.lruList ≠ []) :
    entryCount (evictStep c) + 1 = entryCount c := by
  rcases hgl : c.lruList.getLast? with - | k
  · exact absurd (List.getLast?_eq_none_iff.mp hgl) hl
  · obtain ⟨e, he, -, hstep⟩ := evictStep_spec h hgl
    have hkm : k ∈ c.entries.keys :=
      AList.mem_keys.mp (AList.lookup_isSome.mp (by rw [he]; rfl))
    rw [hstep]
    exact length_keys_erase_add_one hkm

theorem config_removeEntry (c : Cache) (k : String) :
    (removeEntry c k).config = c.config := by
  rcases hlk : c.entries.lookup k with - | e <;> simp [removeEntry, hlk]

theorem config_evictStep (c : Cache) : (evictStep c).config = c.config := by
  simp only [evictStep]
  split
  · rw [config_removeEntry]
  · rfl

theorem Inv_loopFuel (n : Nat) (cond : Cache → Bool) {c : Cache} (h : Inv c) :
    Inv (loopFuel n cond evictStep c) := by
  induction n generalizing c with
  | zero => exact h
  | succ n ih =>
    rw [loopFuel]
    by_cases hc : cond c
    · rw [if_pos hc]; exact ih (Inv_evictStep h)
    · rw [if_neg hc]; exact h

theorem Inv_evictIfNecessary {c : Cache} (h : Inv c) : Inv (evictIfNecessary c) :=
  Inv_loopFuel _ _ (Inv_loopFuel _ _ h)

theorem Inv_Set (now : Int) {k : String} (e : Entry) {c : Cache} (hk : k ≠ "")
    (h : Inv c) : Inv (Set now k e c) := by
  rcases hlk : c.entries.lookup k with - | ex
  · have hset : Set now k e c = evictIfNecessary
        { config := c.config,
          entries := c.entries.insert k (stampEntry now c.config.defaultTTL e),
          lruList := k :: c.lruList.erase k,
          totalSize := c.totalSize + sizeBytes (stampEntry now c.config.defaultTTL e) } := by
      simp [Set, hlk, lruAddToFront, lruRemove]
    rw [hset]
    exact Inv_evictIfNecessary (Inv_insert_front h hk _ _ _ (Or.inl rfl))
  · have hset : Set now k e c = evictIfNecessary
        { config := c.config,
          entries := c.entries.insert k (stampEntry now c.config.defaultTTL e),
          lruList := k :: (c.lruList.erase k).erase k,
          totalSize := (c.totalSize - sizeBytes ex) +
            sizeBytes (stampEntry now c.config.defaultTTL e) } := by
      simp [Set, hlk, lruAddToFront, lruRemove]
    rw [hset]
    exact Inv_evictIfNecessary (Inv_insert_front h hk _ _ _ (Or.inr rfl))

theorem Inv_Get (now : Int) (k : String) {c : Cache} (h : Inv c) :
    Inv (Get now k c).2 := by
  rcases hlk : c.entries.lookup k with - | e
  · simpa [Get, hlk] using h
  · by_cases hexp : isExpired now e
    · have hbr : (Get now k c).2 = removeEntry c k := by simp [Get, hlk, hexp]
      rw [hbr]; exact Inv_removeEntry h k
    · have hkm : k ∈ c.entries := AList.lookup_isSome.mp (by rw [hlk]; rfl)
      have hkl : k ∈ c.lruList := (h.1 k).mp hkm
      have hk : k ≠ "" := fun heq => h.2.2 (heq ▸ hkl)
      have hbr : (Get now k c).2 =
          { config := c.config, entries := c.entries.insert k (touch now e),
            lruList := k :: c.lruList.erase k, totalSize := c.totalSize } := by
        simp [Get, hlk, hexp, lruMoveToFront, hkl]
      rw [hbr]
      exact Inv_insert_front h hk _ _ _ (Or.inl rfl)

theorem delete_eq_removeEntry (k : String) (c : Cache) :
    (Delete k c).2 = removeEntry c k := by
  rcases hlk : c.entries.lookup k with - | e <;>
    simp [Delete, removeEntry, hlk, lruRemove]

theorem Inv_foldl_removeEntry (ks : List String) {c : Cache} (h : Inv c) :
    Inv (ks.foldl removeEntry c) := by
  induction ks generalizing c with
  | nil => exact h
  | cons k ks ih => exact ih (Inv_removeEntry h k)

theorem Inv_New (cfg : Config) : Inv (New cfg) := by
  refine ⟨fun k => ?_, List.nodup_nil, List.not_mem_nil ""⟩
  simp [New]

theorem Inv_Clear {c : Cache} : Inv (Clear c) := by
  refine ⟨fun k => ?_, List.nodup_nil, List.not_mem_nil ""⟩
  simp [Clear]

/-- Every reachable cache state satisfies the full store invariant. -/
theorem Inv_of_Reach {c : Cache} (h : Reach c) : Inv c := by
  induction h with
  | new cfg => exact Inv_New cfg
  | set now k e c _ hk ih => exact Inv_Set now e hk ih
  | get now k c _ ih => exact Inv_Get now k ih
  | del k c _ ih => exact delete_eq_removeEntry k c ▸ Inv_removeEntry ih k
  | inval pat c _ ih => exact Inv_foldl_removeEntry _ ih
  | invalFile fp c _ ih => exact Inv_foldl_removeEntry _ ih
  | clearStore c _ _ => exact Inv_Clear
  | sweep now c _ ih => exact Inv_foldl_removeEntry _ ih

/-! ## Bulk-insertion lemmas for the LRU scenarios -/

theorem loopFuel_of_cond_false (n : Nat) (cond : Cache → Bool) (step : Cache → Cache)
    {c : Cache} (h : cond c = false) : loopFuel n cond step c = c := by
  cases n <;> simp [loopFuel, h]

theorem evictIfNecessary_no_evict {c : Cache} (h1 : countCond c = false)
    (h2 : sizeCond c = false) : evictIfNecessary c = c := by
  show loopFuel _ sizeCond evictStep (loopFuel (entryCount c) countCond evictStep c) = c
  rw [loopFuel_of_cond_false _ _ _ h1, loopFuel_of_cond_false _ _ _ h2]

/-- When the count pass triggers exactly one eviction and the size pass none,
`evictIfNecessary` performs exactly one `evictStep`. -/
theorem evictIfNecessary_one_evict {c : Cache} (hpos : 0 < entryCount c)
    (h1 : countCond c = true) (h2 : countCond (evictStep c) = false)
    (h3 : sizeCond (evictStep c) = false) :
    evictIfNecessary c = evictStep c := by
  show loopFuel _ sizeCond evictStep (loopFuel (entryCount c) countCond evictStep c) =
    evictStep c
  rcases hc : entryCount c with - | n
  · omega
  · rw [loopFuel, if_pos h1, loopFuel_of_cond_false _ _ _ h2,
      loopFuel_of_cond_false _ _ _ h3]

/-- Unfolding of `Set` for a fresh key. -/
theorem Set_fresh (c : Cache) (k : String) (e : Entry)
    (hlk : c.entries.lookup k = none) (now : Int) :
    Set now k e c = evictIfNecessary
      { config := c.config,
        entries := c.entries.insert k (stampEntry now c.config.defaultTTL e),
        lruList := k :: c.lruList.erase k,
        totalSize := c.totalSize + sizeBytes (stampEntry now c.config.defaultTTL e) } := by
  simp [Set, hlk, lruAddToFront, lruRemove]

/-- Stamping an entry whose expiration was unset sets it to `now + ttl`. -/
theorem stampEntry_expiresAt {e : Entry} (hexp : e.expiresAt = 0) (now ttl : Int) :
    (stampEntry now ttl e).expiresAt = now + ttl := by
  simp only [stampEntry, touch, hexp, if_true]
  split <;> rfl

theorem alistOf_keys (v : Entry) :
    ∀ {l : List String}, l.Nodup → (alistOf v l).keys = l := by
  intro l
  induction l with
  | nil => intro _; simp [alistOf]
  | cons a t ih =>
    intro h
    obtain ⟨ha, ht⟩ := List.nodup_cons.mp h
    rw [alistOf, AList.keys_insert, ih ht, List.erase_of_not_mem ha]

theorem alistOf_lookup_mem (v : Entry) {k : String} :
    ∀ {l : List String}, k ∈ l → (alistOf v l).lookup k = some v := by
  intro l
  induction l with
  | nil => intro h; cases h
  | cons a t ih =>
    intro h
    rw [alistOf]
    by_cases hk : k = a
    · subst hk; exact AList.lookup_insert _
    · rw [AList.lookup_insert_ne hk]
      exact ih ((List.mem_cons.mp h).resolve_left hk)

theorem alistOf_lookup_not_mem (v : Entry) {k : String} :
    ∀ {l : List String}, k ∉ l → (alistOf v l).lookup k = none := by
  intro l
  induction l with
  | nil => intro _; simp [alistOf]
  | cons a t ih =>
    intro h
    rw [alistOf, AList.lookup_insert_ne
      (fun hk => h (by rw [hk]; exact List.mem_cons_self a t))]
    exact ih (fun hk => h (List.mem_cons_of_mem a hk))

theorem bulkState_nil (cfg : Config) (now : Int) (e : Entry) :
    bulkState cfg now e [] = New cfg := by
  simp [bulkState, New, alistOf]

theorem countCond_eq_false {c : Cache}
    (h : (entryCount c : Int) ≤ c.config.maxEntries) : countCond c = false := by
  rw [countCond]
  simp only [gt_iff_lt, decide_eq_false_iff_not, not_lt]
  exact h

theorem sizeCond_eq_false {c : Cache} (h : c.totalSize ≤ c.config.maxSizeBytes) :
    sizeCond c = false := by
  have hd : decide (c.totalSize > c.config.maxSizeBytes) = false := by
    simp only [gt_iff_lt, decide_eq_false_iff_not, not_lt]
    exact h
  rw [sizeCond, hd, Bool.false_and]

/-- Inserting a fresh key into a bulk state below both limits extends the
bulk state by that key. -/
theorem Set_bulkState (cfg : Config) (now : Int) (e : Entry) (done : List String)
    (k : String) (hnd : done.Nodup) (hk : k ∉ done)
    (hcount : ((done.length : Int) + 1) ≤ cfg.maxEntries)
    (hsize : ((done.length : Int) + 1) * sizeBytes e ≤ cfg.maxSizeBytes) :
    Set now k e (bulkState cfg now e done) = bulkState cfg now e (done ++ [k]) := by
  have hS : sizeBytes (stampEntry now cfg.defaultTTL e) = sizeBytes e :=
    sizeBytes_stampEntry now cfg.defaultTTL e
  have hS0 : 0 ≤ sizeBytes e := sizeBytes_nonneg e
  have hkrev : k ∉ done.reverse := fun hmm => hk (List.mem_reverse.mp hmm)
  have hndrev : done.reverse.Nodup := List.nodup_reverse.mpr hnd
  have hlk : (bulkState cfg now e done).entries.lookup k = none :=
    alistOf_lookup_not_mem _ hkrev
  rw [Set_fresh _ _ e hlk now]
  have herane : (done.reverse).erase k = done.reverse := List.erase_of_not_mem hkrev
  have hkeys : ((alistOf (stampEntry now cfg.defaultTTL e) done.reverse).insert k
      (stampEntry now cfg.defaultTTL e)).keys = k :: done.reverse := by
    rw [AList.keys_insert, alistOf_keys _ hndrev, herane]
  rw [evictIfNecessary_no_evict]
  · refine Cache.ext rfl ?_ ?_ ?_
    · show (alistOf (stampEntry now cfg.defaultTTL e) done.reverse).insert k
        (stampEntry now cfg.defaultTTL e) =
        alistOf (stampEntry now cfg.defaultTTL e) ((done ++ [k]).reverse)
      rw [List.reverse_append]
      rfl
    · show k :: done.reverse.erase k = (done ++ [k]).reverse
      rw [herane, List.reverse_append]
      rfl
    · show (done.length : Int) * sizeBytes (stampEntry now cfg.defaultTTL e) +
        sizeBytes (stampEntry now cfg.defaultTTL e) =
        ((done ++ [k]).length : Int) * sizeBytes (stampEntry now cfg.defaultTTL e)
      rw [List.length_append, List.length_singleton]
      push_cast
      ring
  · apply countCond_eq_false
    show (((alistOf (stampEntry now cfg.defaultTTL e) done.reverse).insert k
      (stampEntry now cfg.defaultTTL e)).keys.length : Int) ≤ cfg.maxEntries
    rw [hkeys, List.length_cons, List.length_reverse]
    push_cast
    omega
  · apply sizeCond_eq_false
    show (done.length : Int) * sizeBytes (stampEntry now cfg.defaultTTL e) +
      sizeBytes (stampEntry now cfg.defaultTTL e) ≤ cfg.maxSizeBytes
    rw [hS]
    calc (done.length : Int) * sizeBytes e + sizeBytes e
        = ((done.length : Int) + 1) * sizeBytes e := by ring
      _ ≤ cfg.maxSizeBytes := hsize

/-- Folding `Set` over fresh distinct keys below both limits produces the
bulk state, key by key. -/
theorem setAll_under_capacity (cfg : Config) (now : Int) (e : Entry) :
    ∀ (ks done : List String), (done ++ ks).Nodup →
      (((done.length + ks.length : Nat) : Int) ≤ cfg.maxEntries) →
      (((done.length + ks.length : Nat) : Int) * sizeBytes e ≤ cfg.maxSizeBytes) →
      setAll now e ks (bulkState cfg now e done) = bulkState cfg now e (done ++ ks) := by
  intro ks
  induction ks with
  | nil => intro done _ _ _; simp [setAll]
  | cons k ks' ih =>
    intro done hnd hcount hsize
    have hS0 : 0 ≤ sizeBytes e := sizeBytes_nonneg e
    obtain ⟨hnd1, hnd2, hdisj⟩ := List.nodup_append.mp hnd
    have hk : k ∉ done := fun hmm => hdisj hmm (List.mem_cons_self k ks')
    have hstep : Set now k e (bulkState cfg now e done) =
        bulkState cfg now e (done ++ [k]) := by
      refine Set_bulkState cfg now e done k hnd1 hk ?_ ?_
      · have h2 := hcount
        push_cast [List.length_cons] at h2 ⊢
        omega
      · calc ((done.length : Int) + 1) * sizeBytes e
            ≤ ((done.length + (ks'.length + 1) : Nat) : Int) * sizeBytes e := by
              refine mul_le_mul_of_nonneg_right ?_ hS0
              push_cast
              omega
          _ ≤ cfg.maxSizeBytes := by
              simpa using hsize
    have hco : ((done ++ [k]).length + ks'.length : Nat) =
        (done.length + (k :: ks').length : Nat) := by
      simp only [List.length_append, List.length_cons, List.length_nil]
      omega
    show setAll now e ks' (Set now k e (bulkState cfg now e done)) = _
    rw [hstep, ih (done ++ [k]) (by simpa [List.append_assoc] using hnd)
      (by rw [hco]; exact hcount)
      (by rw [hco]; exact hsize)]
    simp [List.append_assoc]

theorem countCond_eq_true {c : Cache}
    (h : c.config.maxEntries < (entryCount c : Int)) : countCond c = true := by
  rw [countCond]
  exact decide_eq_true h

/-! ## Claim C5 -/

/-- Claim C5 (amended): for a store with MaxEntries = N ≥ 1 whose size limit
does not bind, inserting N+1 distinct NON-EMPTY keys in sequence with no
intervening reads evicts exactly the first-inserted key: a read of the first
key misses and a read of each of the other N keys hits. -/
theorem C5_lru_evicts_exactly_first_key (N : Nat) (hN : 1 ≤ N) (cfg : Config)
    (now : Int) (e : Entry) (k0 : String) (rest : List String)
    (hmax : cfg.maxEntries = (N : Int))
    (hlen : (k0 :: rest).length = N + 1)
    (hnd : (k0 :: rest).Nodup)
    (hkne : ∀ k ∈ k0 :: rest, k ≠ "")
    (httl : 0 ≤ cfg.defaultTTL) (hexp : e.expiresAt = 0)
    (hsize : ((N : Int) + 1) * sizeBytes e ≤ cfg.maxSizeBytes) :
    (Get now k0 (setAll now e (k0 :: rest) (New cfg))).1 = none ∧
      ∀ k ∈ rest, ((Get now k (setAll now e (k0 :: rest) (New cfg))).1).isSome = true := by
  have hS0 : 0 ≤ sizeBytes e := sizeBytes_nonneg e
  have hS : sizeBytes (stampEntry now cfg.defaultTTL e) = sizeBytes e :=
    sizeBytes_stampEntry now cfg.defaultTTL e
  have hk0ne : k0 ≠ "" := hkne k0 (List.mem_cons_self _ _)
  have hnotexp : isExpired now (stampEntry now cfg.defaultTTL e) = false := by
    rw [isExpired, stampEntry_expiresAt hexp]
    simp only [decide_eq_false_iff_not, not_lt]
    omega
  have hrne : rest ≠ [] := by
    intro hr
    rw [hr] at hlen
    simp only [List.length_cons, List.length_nil] at hlen
    omega
  obtain ⟨mid, klast, hrc⟩ := (List.eq_nil_or_concat rest).resolve_left hrne
  rw [List.concat_eq_append] at hrc
  subst hrc
  have hmidlen : mid.length + 1 = N := by
    simp only [List.length_cons, List.length_append, List.length_nil] at hlen
    omega
  obtain ⟨hk0nm, hndr⟩ := List.nodup_cons.mp hnd
  obtain ⟨hndmid, -, hdisj⟩ := List.nodup_append.mp hndr
  have hklastmid : klast ∉ mid := fun hm => hdisj hm (List.mem_singleton_self klast)
  have hk0mid : k0 ∉ mid := fun hm => hk0nm (List.mem_append_left _ hm)
  have hk0klast : k0 ≠ klast := fun hq =>
    hk0nm (List.mem_append_right _ (by rw [hq]; exact List.mem_singleton_self klast))
  have hndinit : (k0 :: mid).Nodup := List.nodup_cons.mpr ⟨hk0mid, hndmid⟩
  have hklastinit : klast ∉ k0 :: mid := by
    intro hm
    rcases List.mem_cons.mp hm with hq | hq
    · exact hk0klast hq.symm
    · exact hklastmid hq
  have hk0notin : k0 ∉ klast :: mid.reverse := by
    intro hm
    rcases List.mem_cons.mp hm with hq | hq
    · exact hk0klast hq
    · exact hk0mid (List.mem_reverse.mp hq)
  have hrev : (k0 :: mid).reverse = mid.reverse ++ [k0] := by
    simp [List.reverse_cons]
  -- split the insertion sequence after the first N keys
  have hsplit : setAll now e (k0 :: (mid ++ [klast])) (New cfg) =
      Set now klast e (setAll now e (k0 :: mid) (New cfg)) := by
    show setAll now e ((k0 :: mid) ++ [klast]) (New cfg) = _
    rw [setAll, List.foldl_append]
    rfl
  -- the first N inserts stay under both limits
  have hbulk : setAll now e (k0 :: mid) (New cfg) = bulkState cfg now e (k0 :: mid) := by
    have h := setAll_under_capacity cfg now e (k0 :: mid) []
      (by simpa using hndinit)
      (by
        rw [hmax]
        push_cast [List.length_cons, List.length_nil]
        omega)
      (by
        have hco : (([] : List String).length + (k0 :: mid).length : Nat) = N := by
          simp only [List.length_cons, List.length_nil]
          omega
        rw [hco]
        calc (N : Int) * sizeBytes e
            ≤ ((N : Int) + 1) * sizeBytes e := by
              refine mul_le_mul_of_nonneg_right ?_ hS0
              omega
          _ ≤ cfg.maxSizeBytes := hsize)
    rw [bulkState_nil] at h
    simpa using h
  -- the final insert and the single eviction it triggers
  have hlkl : (bulkState cfg now e (k0 :: mid)).entries.lookup klast = none :=
    alistOf_lookup_not_mem _ (fun hm => hklastinit (List.mem_reverse.mp hm))
  have herasekl : ((k0 :: mid).reverse).erase klast = (k0 :: mid).reverse :=
    List.erase_of_not_mem (fun hm => hklastinit (List.mem_reverse.mp hm))
  have hkeysX : ((alistOf (stampEntry now cfg.defaultTTL e) ((k0 :: mid).reverse)).insert
      klast (stampEntry now cfg.defaultTTL e)).keys =
      klast :: (k0 :: mid).reverse := by
    rw [AList.keys_insert, alistOf_keys _ (List.nodup_reverse.mpr hndinit), herasekl]
  have hgl2 : (klast :: ((k0 :: mid).reverse).erase klast).getLast? = some k0 := by
    rw [herasekl, hrev]
    show ((klast :: mid.reverse) ++ [k0]).getLast? = some k0
    rw [List.getLast?_append_of_ne_nil _ (by simp)]
    rfl
  have herlru : (klast :: ((k0 :: mid).reverse).erase klast).erase k0 =
      klast :: mid.reverse := by
    rw [herasekl, hrev]
    show ((klast :: mid.reverse) ++ [k0]).erase k0 = klast :: mid.reverse
    rw [List.erase_append_right _ hk0notin, List.erase_cons_head]
    simp
  have hro : lruRemoveOldest (klast :: ((k0 :: mid).reverse).erase klast) =
      (k0, klast :: mid.reverse) := by
    rw [lruRemoveOldest, hgl2]
    show (k0, (klast :: ((k0 :: mid).reverse).erase klast).erase k0) = _
    rw [herlru]
  have hlk0 : ((alistOf (stampEntry now cfg.defaultTTL e) ((k0 :: mid).reverse)).insert
      klast (stampEntry now cfg.defaultTTL e)).lookup k0 =
      some (stampEntry now cfg.defaultTTL e) := by
    rw [AList.lookup_insert_ne hk0klast]
    exact alistOf_lookup_mem _
      (by rw [hrev]; exact List.mem_append_right _ (List.mem_singleton_self k0))
  have herlru2 : (klast :: mid.reverse).erase k0 = klast :: mid.reverse :=
    List.erase_of_not_mem hk0notin
  have hfinal : setAll now e (k0 :: (mid ++ [klast])) (New cfg) =
      { config := cfg,
        entries := ((alistOf (stampEntry now cfg.defaultTTL e)
          ((k0 :: mid).reverse)).insert klast
          (stampEntry now cfg.defaultTTL e)).erase k0,
        lruList := klast :: mid.reverse,
        totalSize := ((k0 :: mid).length : Int) *
          sizeBytes (stampEntry now cfg.defaultTTL e) +
          sizeBytes (stampEntry now cfg.defaultTTL e) -
          sizeBytes (stampEntry now cfg.defaultTTL e) } := by
    have hstepX : evictStep
        { config := cfg,
          entries := (alistOf (stampEntry now cfg.defaultTTL e)
            ((k0 :: mid).reverse)).insert klast (stampEntry now cfg.defaultTTL e),
          lruList := klast :: ((k0 :: mid).reverse).erase klast,
          totalSize := ((k0 :: mid).length : Int) *
            sizeBytes (stampEntry now cfg.defaultTTL e) +
            sizeBytes (stampEntry now cfg.defaultTTL e) } =
        { config := cfg,
          entries := ((alistOf (stampEntry now cfg.defaultTTL e)
            ((k0 :: mid).reverse)).insert klast
            (stampEntry now cfg.defaultTTL e)).erase k0,
          lruList := klast :: mid.reverse,
          totalSize := ((k0 :: mid).length : Int) *
            sizeBytes (stampEntry now cfg.defaultTTL e) +
            sizeBytes (stampEntry now cfg.defaultTTL e) -
            sizeBytes (stampEntry now cfg.defaultTTL e) } := by
      simp only [evictStep, hro]
      rw [if_pos hk0ne]
      simp only [removeEntry, hlk0, lruRemove]
      rw [herlru2]
    rw [hsplit, hbulk, Set_fresh _ _ e hlkl now]
    simp only [bulkState]
    rw [evictIfNecessary_one_evict]
    · exact hstepX
    · -- the store is non-empty before eviction
      show 0 < ((alistOf (stampEntry now cfg.defaultTTL e) ((k0 :: mid).reverse)).insert
        klast (stampEntry now cfg.defaultTTL e)).keys.length
      rw [hkeysX]
      simp
    · -- the count limit is exceeded before eviction
      apply countCond_eq_true
      show cfg.maxEntries <
        (((alistOf (stampEntry now cfg.defaultTTL e) ((k0 :: mid).reverse)).insert
          klast (stampEntry now cfg.defaultTTL e)).keys.length : Int)
      rw [hkeysX, hmax]
      push_cast [List.length_cons, List.length_reverse]
      omega
    · -- one eviction restores the count limit
      rw [hstepX]
      apply countCond_eq_false
      show ((((alistOf (stampEntry now cfg.defaultTTL e) ((k0 :: mid).reverse)).insert
          klast (stampEntry now cfg.defaultTTL e)).erase k0).keys.length : Int) ≤
        cfg.maxEntries
      rw [AList.keys_erase, hkeysX, hrev]
      rw [show (klast :: (mid.reverse ++ [k0])).erase k0 = klast :: mid.reverse from by
        show ((klast :: mid.reverse) ++ [k0]).erase k0 = klast :: mid.reverse
        rw [List.erase_append_right _ hk0notin, List.erase_cons_head]
        simp]
      rw [hmax]
      push_cast [List.length_cons, List.length_reverse]
      omega
    · -- the size limit also holds after the eviction
      rw [hstepX]
      apply sizeCond_eq_false
      show ((k0 :: mid).length : Int) *
          sizeBytes (stampEntry now cfg.defaultTTL e) +
          sizeBytes (stampEntry now cfg.defaultTTL e) -
          sizeBytes (stampEntry now cfg.defaultTTL e) ≤ cfg.maxSizeBytes
      rw [hS]
      have hlc : ((k0 :: mid).length : Int) = ((N : Int)) := by
        push_cast [List.length_cons]
        omega
      rw [hlc]
      calc (N : Int) * sizeBytes e + sizeBytes e - sizeBytes e
          = (N : Int) * sizeBytes e := by ring
        _ ≤ ((N : Int) + 1) * sizeBytes e := by
            refine mul_le_mul_of_nonneg_right ?_ hS0
            omega
        _ ≤ cfg.maxSizeBytes := hsize
  rw [hfinal]
  constructor
  · -- the first-inserted key now misses
    simp [Get, AList.lookup_erase]
  · -- every other key still hits
    intro k hk
    have hkk0 : k ≠ k0 := by
      intro hq
      rw [hq] at hk
      exact hk0nm hk
    have hlkup : (((alistOf (stampEntry now cfg.defaultTTL e)
        ((k0 :: mid).reverse)).insert klast
        (stampEntry now cfg.defaultTTL e)).erase k0).lookup k =
        some (stampEntry now cfg.defaultTTL e) := by
      rw [AList.lookup_erase_ne hkk0]
      rcases List.mem_append.mp hk with hq | hq
      · rw [AList.lookup_insert_ne (fun he2 => hklastmid (by rw [← he2]; exact hq))]
        exact alistOf_lookup_mem _
          (by rw [hrev]; exact List.mem_append_left _ (List.mem_reverse.mpr hq))
      · rw [List.mem_singleton.mp hq]
        exact AList.lookup_insert _
    rw [hrev] at hlkup
    simp [Get, hlkup, hnotexp]

/-- Witness for C5 (amended): N = 1, inserting the keys "a" then "b" into an
empty one-entry store. -/
theorem C5_witness :
    (Get 0 "a" (setAll 0 eT ["a", "b"] (New cfg1))).1 = none ∧
      ∀ k ∈ ["b"], ((Get 0 k (setAll 0 eT ["a", "b"] (New cfg1))).1).isSome = true := by
  refine C5_lru_evicts_exactly_first_key 1 (by decide) cfg1 0 eT "a" ["b"]
    (by decide) (by decide) (by decide) (by decide) (by decide) (by decide) (by decide)

/-- Counterexample for C5 as stated (arbitrary distinct keys): with
MaxEntries = 1, inserting the two distinct keys `""` then `"x"` does not
evict the first key — the empty-string sentinel makes the eviction guard
skip the map removal of `""` and the loop removes `"x"` instead, so the
first key still hits and the second misses. -/
theorem C5_counterexample :
    cfg1.maxEntries = (1 : Int) ∧ (("" :: ["x"]) : List String).Nodup ∧
      ((Get 0 "" (setAll 0 eT ("" :: ["x"]) (New cfg1))).1).isSome = true ∧
      (Get 0 "x" (setAll 0 eT ("" :: ["x"]) (New cfg1))).1 = none := by
  decide

/-! ## Claim C6 -/

/-- Claim C6: a successful `Get` moves the key to the front of the recency
order — with MaxEntries = 2 (size limit not binding), after `Set "a"`,
`Set "b"`, `Get "a"`, `Set "c"`, the key `"b"` is evicted while `"a"` and
`"c"` remain retrievable. -/
theorem C6_get_moves_key_to_front (cfg : Config) (now : Int) (e : Entry)
    (hmax : cfg.maxEntries = 2) (httl : 0 ≤ cfg.defaultTTL) (hexp : e.expiresAt = 0)
    (hsize : 3 * sizeBytes e ≤ cfg.maxSizeBytes) :
    (Get now "b" (Set now "c" e
      (Get now "a" (setAll now e ["a", "b"] (New cfg))).2)).1 = none ∧
      ((Get now "a" (Set now "c" e
        (Get now "a" (setAll now e ["a", "b"] (New cfg))).2)).1).isSome = true ∧
      ((Get now "c" (Set now "c" e
        (Get now "a" (setAll now e ["a", "b"] (New cfg))).2)).1).isSome = true := by
  have hS0 : 0 ≤ sizeBytes e := sizeBytes_nonneg e
  have hS : sizeBytes (stampEntry now cfg.defaultTTL e) = sizeBytes e :=
    sizeBytes_stampEntry now cfg.defaultTTL e
  have hnotexp : isExpired now (stampEntry now cfg.defaultTTL e) = false := by
    rw [isExpired, stampEntry_expiresAt hexp]
    simp only [decide_eq_false_iff_not, not_lt]
    omega
  have hnotexpT : isExpired now (touch now (stampEntry now cfg.defaultTTL e)) = false := by
    rw [isExpired]
    show decide ((stampEntry now cfg.defaultTTL e).expiresAt < now) = false
    rw [stampEntry_expiresAt hexp]
    simp only [decide_eq_false_iff_not, not_lt]
    omega
  -- state after the two inserts
  have hbulk : setAll now e ["a", "b"] (New cfg) =
      { config := cfg,
        entries := alistOf (stampEntry now cfg.defaultTTL e) ["b", "a"],
        lruList := ["b", "a"],
        totalSize := 2 * sizeBytes (stampEntry now cfg.defaultTTL e) } := by
    have h := setAll_under_capacity cfg now e ["a", "b"] []
      (by decide)
      (by rw [hmax]; norm_num)
      (by
        have h2 : ((([] : List String).length + (["a", "b"] : List String).length : Nat) :
            Int) = 2 := by norm_num
        rw [h2]
        calc (2 : Int) * sizeBytes e ≤ 3 * sizeBytes e := by linarith
          _ ≤ cfg.maxSizeBytes := hsize)
    rw [bulkState_nil] at h
    have h3 : setAll now e ["a", "b"] (New cfg) = bulkState cfg now e ["a", "b"] := by
      simpa using h
    refine h3.trans (Cache.ext rfl rfl rfl ?_)
    show ((["a", "b"] : List String).length : Int) *
      sizeBytes (stampEntry now cfg.defaultTTL e) = _
    norm_num
  -- the read of "a" touches the entry and moves the key to the front
  have hlkA : (alistOf (stampEntry now cfg.defaultTTL e) ["b", "a"]).lookup "a" =
      some (stampEntry now cfg.defaultTTL e) :=
    alistOf_lookup_mem _ (by decide)
  have hmvA : lruMoveToFront ["b", "a"] "a" = ["a", "b"] := by decide
  have hGA : Get now "a"
      { config := cfg,
        entries := alistOf (stampEntry now cfg.defaultTTL e) ["b", "a"],
        lruList := ["b", "a"],
        totalSize := 2 * sizeBytes (stampEntry now cfg.defaultTTL e) } =
      (some (touch now (stampEntry now cfg.defaultTTL e)),
        { config := cfg,
          entries := (alistOf (stampEntry now cfg.defaultTTL e) ["b", "a"]).insert "a"
            (touch now (stampEntry now cfg.defaultTTL e)),
          lruList := ["a", "b"],
          totalSize := 2 * sizeBytes (stampEntry now cfg.defaultTTL e) }) := by
    simp only [Get, hlkA, hnotexp, Bool.false_eq_true, if_false, hmvA]
  have hGA2 : (Get now "a"
      { config := cfg,
        entries := alistOf (stampEntry now cfg.defaultTTL e) ["b", "a"],
        lruList := ["b", "a"],
        totalSize := 2 * sizeBytes (stampEntry now cfg.defaultTTL e) }).2 =
      { config := cfg,
        entries := (alistOf (stampEntry now cfg.defaultTTL e) ["b", "a"]).insert "a"
          (touch now (stampEntry now cfg.defaultTTL e)),
        lruList := ["a", "b"],
        totalSize := 2 * sizeBytes (stampEntry now cfg.defaultTTL e) } := by
    rw [hGA]
  -- the insert of "c" misses, installs at the front, and evicts "b"
  have hlkC : ((alistOf (stampEntry now cfg.defaultTTL e) ["b", "a"]).insert "a"
      (touch now (stampEntry now cfg.defaultTTL e))).lookup "c" = none := by
    rw [AList.lookup_insert_ne (by decide)]
    exact alistOf_lookup_not_mem _ (by decide)
  have hro6 : lruRemoveOldest ("c" :: (["a", "b"] : List String).erase "c") =
      ("b", ["c", "a"]) := by decide
  have hlkB : (((alistOf (stampEntry now cfg.defaultTTL e) ["b", "a"]).insert "a"
      (touch now (stampEntry now cfg.defaultTTL e))).insert "c"
      (stampEntry now cfg.defaultTTL e)).lookup "b" =
      some (stampEntry now cfg.defaultTTL e) := by
    rw [AList.lookup_insert_ne (by decide), AList.lookup_insert_ne (by decide)]
    exact alistOf_lookup_mem _ (by decide)
  have hkeys6 : (((alistOf (stampEntry now cfg.defaultTTL e) ["b", "a"]).insert "a"
      (touch now (stampEntry now cfg.defaultTTL e))).insert "c"
      (stampEntry now cfg.defaultTTL e)).keys = ["c", "a", "b"] := by
    rw [AList.keys_insert, AList.keys_insert, alistOf_keys _ (by decide)]
    decide
  have hstep6 : evictStep
      { config := cfg,
        entries := ((alistOf (stampEntry now cfg.defaultTTL e) ["b", "a"]).insert "a"
          (touch now (stampEntry now cfg.defaultTTL e))).insert "c"
          (stampEntry now cfg.defaultTTL e),
        lruList := "c" :: (["a", "b"] : List String).erase "c",
        totalSize := 2 * sizeBytes (stampEntry now cfg.defaultTTL e) +
          sizeBytes (stampEntry now cfg.defaultTTL e) } =
      { config := cfg,
        entries := (((alistOf (stampEntry now cfg.defaultTTL e) ["b", "a"]).insert "a"
          (touch now (stampEntry now cfg.defaultTTL e))).insert "c"
          (stampEntry now cfg.defaultTTL e)).erase "b",
        lruList := ["c", "a"],
        totalSize := 2 * sizeBytes (stampEntry now cfg.defaultTTL e) +
          sizeBytes (stampEntry now cfg.defaultTTL e) -
          sizeBytes (stampEntry now cfg.defaultTTL e) } := by
    simp only [evictStep, hro6]
    rw [if_pos (show ("b" : String) ≠ "" by decide)]
    simp only [removeEntry, hlkB, lruRemove]
    rw [show (["c", "a"] : List String).erase "b" = ["c", "a"] from by decide]
  have hSetC : Set now "c" e
      { config := cfg,
        entries := (alistOf (stampEntry now cfg.defaultTTL e) ["b", "a"]).insert "a"
          (touch now (stampEntry now cfg.defaultTTL e)),
        lruList := ["a", "b"],
        totalSize := 2 * sizeBytes (stampEntry now cfg.defaultTTL e) } =
      { config := cfg,
        entries := (((alistOf (stampEntry now cfg.defaultTTL e) ["b", "a"]).insert "a"
          (touch now (stampEntry now cfg.defaultTTL e))).insert "c"
          (stampEntry now cfg.defaultTTL e)).erase "b",
        lruList := ["c", "a"],
        totalSize := 2 * sizeBytes (stampEntry now cfg.defaultTTL e) +
          sizeBytes (stampEntry now cfg.defaultTTL e) -
          sizeBytes (stampEntry now cfg.defaultTTL e) } := by
    rw [Set_fresh
      { config := cfg,
        entries := (alistOf (stampEntry now cfg.defaultTTL e) ["b", "a"]).insert "a"
          (touch now (stampEntry now cfg.defaultTTL e)),
        lruList := ["a", "b"],
        totalSize := 2 * sizeBytes (stampEntry now cfg.defaultTTL e) } "c" e hlkC now]
    rw [evictIfNecessary_one_evict]
    · exact hstep6
    · exact (show 0 < (((alistOf (stampEntry now cfg.defaultTTL e) ["b", "a"]).insert "a"
        (touch now (stampEntry now cfg.defaultTTL e))).insert "c"
        (stampEntry now cfg.defaultTTL e)).keys.length by rw [hkeys6]; decide)
    · apply countCond_eq_true
      show cfg.maxEntries < ((((alistOf (stampEntry now cfg.defaultTTL e)
        ["b", "a"]).insert "a" (touch now (stampEntry now cfg.defaultTTL e))).insert "c"
        (stampEntry now cfg.defaultTTL e)).keys.length : Int)
      rw [hkeys6, hmax]
      norm_num
    · exact (show countCond
        { config := cfg,
          entries := (((alistOf (stampEntry now cfg.defaultTTL e) ["b", "a"]).insert "a"
            (touch now (stampEntry now cfg.defaultTTL e))).insert "c"
            (stampEntry now cfg.defaultTTL e)).erase "b",
          lruList := ["c", "a"],
          totalSize := 2 * sizeBytes (stampEntry now cfg.defaultTTL e) +
            sizeBytes (stampEntry now cfg.defaultTTL e) -
            sizeBytes (stampEntry now cfg.defaultTTL e) } = false by
        apply countCond_eq_false
        show (((((alistOf (stampEntry now cfg.defaultTTL e) ["b", "a"]).insert "a"
          (touch now (stampEntry now cfg.defaultTTL e))).insert "c"
          (stampEntry now cfg.defaultTTL e)).erase "b").keys.length : Int) ≤
          cfg.maxEntries
        rw [AList.keys_erase, hkeys6, hmax]
        rw [show (["c", "a", "b"] : List String).erase "b" = ["c", "a"] from by decide]
        norm_num)
    · exact (show sizeCond
        { config := cfg,
          entries := (((alistOf (stampEntry now cfg.defaultTTL e) ["b", "a"]).insert "a"
            (touch now (stampEntry now cfg.defaultTTL e))).insert "c"
            (stampEntry now cfg.defaultTTL e)).erase "b",
          lruList := ["c", "a"],
          totalSize := 2 * sizeBytes (stampEntry now cfg.defaultTTL e) +
            sizeBytes (stampEntry now cfg.defaultTTL e) -
            sizeBytes (stampEntry now cfg.defaultTTL e) } = false by
        apply sizeCond_eq_false
        show 2 * sizeBytes (stampEntry now cfg.defaultTTL e) +
          sizeBytes (stampEntry now cfg.defaultTTL e) -
          sizeBytes (stampEntry now cfg.defaultTTL e) ≤ cfg.maxSizeBytes
        rw [hS]
        linarith)
  rw [hbulk, hGA2, hSetC]
  refine ⟨?_, ?_, ?_⟩
  · -- "b" was evicted
    simp [Get, AList.lookup_erase]
  · -- "a" still hits (it was touched and moved to front by the read)
    have hlka2 : ((((alistOf (stampEntry now cfg.defaultTTL e) ["b", "a"]).insert "a"
        (touch now (stampEntry now cfg.defaultTTL e))).insert "c"
        (stampEntry now cfg.defaultTTL e)).erase "b").lookup "a" =
        some (touch now (stampEntry now cfg.defaultTTL e)) := by
      rw [AList.lookup_erase_ne (by decide), AList.lookup_insert_ne (by decide)]
      exact AList.lookup_insert _
    simp [Get, hlka2, hnotexpT]
  · -- "c" hits
    have hlkc2 : ((((alistOf (stampEntry now cfg.defaultTTL e) ["b", "a"]).insert "a"
        (touch now (stampEntry now cfg.defaultTTL e))).insert "c"
        (stampEntry now cfg.defaultTTL e)).erase "b").lookup "c" =
        some (stampEntry now cfg.defaultTTL e) := by
      rw [AList.lookup_erase_ne (by decide)]
      exact AList.lookup_insert _
    simp [Get, hlkc2, hnotexp]

/-- Witness for C6: concrete template entry, instant 0 and a two-entry
configuration. -/
theorem C6_witness :
    (Get 0 "b" (Set 0 "c" eT
      (Get 0 "a" (setAll 0 eT ["a", "b"] (New cfg2))).2)).1 = none ∧
      ((Get 0 "a" (Set 0 "c" eT
        (Get 0 "a" (setAll 0 eT ["a", "b"] (New cfg2))).2)).1).isSome = true ∧
      ((Get 0 "c" (Set 0 "c" eT
        (Get 0 "a" (setAll 0 eT ["a", "b"] (New cfg2))).2)).1).isSome = true :=
  C6_get_moves_key_to_front cfg2 0 eT (by decide) (by decide) (by decide) (by decide)

/-! ## Claim C9 -/

/-- Claim C9 (amended): in every cache state reachable from a fresh cache by
`Set`, `Get`, `Delete`, `Invalidate`, `InvalidateByFilePath`, `Clear`,
eviction and cleanup — provided every key handed to `Set` is non-empty — a
key is present in the entries map exactly when it is present in the eviction
list. -/
theorem C9_map_and_list_agree_on_reachable_states {c : Cache} (h : Reach c) :
    ∀ k, k ∈ c.entries.keys ↔ k ∈ c.lruList :=
  fun k => Iff.trans (Iff.symm AList.mem_keys) ((Inv_of_Reach h).1 k)

/-- Witness for C9: the state reached by one `Set` of the key `"a"`. -/
theorem C9_witness :
    ("a" ∈ (Set 0 "a" eT (New cfg1)).entries.keys ↔
      "a" ∈ (Set 0 "a" eT (New cfg1)).lruList) :=
  C9_map_and_list_agree_on_reachable_states
    (Reach.set 0 "a" eT (New cfg1) (Reach.new cfg1) (by decide)) "a"

/-- Counterexample for C9 as stated (with arbitrary keys allowed): after
`Set("")` followed by `Set("x")` on an empty store with max-entries 1, the
eviction pops the empty-string key, and `evictIfNecessary`'s `oldest != ""`
guard mistakes it for the empty-list sentinel and skips the map removal — the
key `""` remains in the entries map but is gone from the eviction list. -/
theorem C9_counterexample :
    ("" ∈ c5bad.entries.keys) ∧ ("" ∉ c5bad.lruList) := by
  decide

/-! ## Claim C10 -/

/-- Generic exit argument: if a loop guard forces a non-empty eviction list
on invariant states that also satisfy a step-stable side condition, the loop
body drains the store and the guard eventually fails. -/
theorem loop_exits_of_progress (P : Cache → Prop)
    (hP : ∀ c, P c → P (evictStep c)) (cond : Cache → Bool)
    (hne : ∀ c, Inv c → P c → cond c = true → c.lruList ≠ []) :
    ∀ c, Inv c → P c → ∃ n, cond (evictStep^[n] c) = false := by
  have main : ∀ N c, entryCount c ≤ N → Inv c → P c →
      ∃ n, cond (evictStep^[n] c) = false := by
    intro N
    induction N with
    | zero =>
      intro c hN h hp
      cases hcond : cond c with
      | false => exact ⟨0, hcond⟩
      | true =>
        exfalso
        obtain ⟨k, hk⟩ := List.exists_mem_of_ne_nil _ (hne c h hp hcond)
        have hkm : k ∈ c.entries.keys := AList.mem_keys.mp ((h.1 k).mpr hk)
        have := List.length_pos_of_mem hkm
        rw [entryCount] at hN
        omega
    | succ N ih =>
      intro c hN h hp
      cases hcond : cond c with
      | false => exact ⟨0, hcond⟩
      | true =>
        have hl := hne c h hp hcond
        have hc' : entryCount (evictStep c) + 1 = entryCount c :=
          entryCount_evictStep h hl
        obtain ⟨n, hn⟩ := ih (evictStep c) (by omega) (Inv_evictStep h) (hP c hp)
        exact ⟨n + 1, by rw [Function.iterate_succ_apply]; exact hn⟩
  exact fun c h hp => main (entryCount c) c le_rfl h hp

/-- Claim C10 (amended): for every cache state satisfying the store invariant
(map and list hold the same keys, the list is duplicate-free, no stored key
is the empty string) whose configured max-entries count is non-negative:
whenever the entries map is non-empty, `removeOldest` returns a non-empty key
and the eviction body strictly decreases the entry count, and both eviction
loops (count pass and size pass) reach their exit conditions after finitely
many iterations. -/
theorem C10_eviction_terminates_on_invariant_states {c : Cache} (h : Inv c)
    (hmax : 0 ≤ c.config.maxEntries) :
    (c.entries.keys ≠ [] →
      (lruRemoveOldest c.lruList).1 ≠ "" ∧
        entryCount (evictStep c) + 1 = entryCount c) ∧
      CountLoopExits c ∧ SizeLoopExits c := by
  have hlne : ∀ c' : Cache, Inv c' → c'.entries.keys ≠ [] → c'.lruList ≠ [] := by
    intro c' h' hkeys
    obtain ⟨k, hk⟩ := List.exists_mem_of_ne_nil _ hkeys
    have : k ∈ c'.lruList := (h'.1 k).mp (AList.mem_keys.mpr hk)
    exact List.ne_nil_of_mem this
  refine ⟨?_, ?_, ?_⟩
  · intro hkeys
    have hl := hlne c h hkeys
    rcases hgl : c.lruList.getLast? with - | k
    · exact absurd (List.getLast?_eq_none_iff.mp hgl) hl
    · obtain ⟨e, -, hk, -⟩ := evictStep_spec h hgl
      constructor
      · rw [lruRemoveOldest, hgl]; exact hk
      · exact entryCount_evictStep h hl
  · refine loop_exits_of_progress (fun c' => 0 ≤ c'.config.maxEntries)
      (fun c' hp => ?_) countCond ?_ c h hmax
    · show 0 ≤ (evictStep c').config.maxEntries
      rw [config_evictStep]; exact hp
    · intro c' h' hp hcond
      have hgt : c'.config.maxEntries < (entryCount c' : Int) := by
        have h2 := hcond
        simp only [countCond, gt_iff_lt, decide_eq_true_eq] at h2
        exact h2
      have hp' : 0 ≤ c'.config.maxEntries := hp
      have hpos : 0 < entryCount c' := by omega
      apply hlne c' h'
      intro hkeys
      rw [entryCount, hkeys] at hpos
      simp at hpos
  · refine loop_exits_of_progress (fun _ => True) (fun _ _ => trivial) sizeCond ?_
      c h trivial
    intro c' h' _ hcond
    have hpos : 0 < entryCount c' := by
      have h2 := hcond
      simp only [sizeCond, Bool.and_eq_true, decide_eq_true_eq] at h2
      exact h2.2
    apply hlne c' h'
    intro hkeys
    rw [entryCount, hkeys] at hpos
    simp at hpos

/-- Witness for C10 (amended): the freshly constructed default cache. -/
theorem C10_witness :
    CountLoopExits (New DefaultConfig) ∧ SizeLoopExits (New DefaultConfig) :=
  (C10_eviction_terminates_on_invariant_states (Inv_New DefaultConfig)
    (by decide)).2

/-- Counterexample for C10 as stated: the empty cache constructed with
max-entries −1 satisfies the membership invariant, yet the count-eviction
loop never reaches its exit condition — `len(entries) > MaxEntries` stays
true forever because the count can never drop below zero. -/
theorem C10_counterexample :
    Inv (New cfgNeg) ∧ ¬ CountLoopExits (New cfgNeg) := by
  refine ⟨Inv_New cfgNeg, ?_⟩
  rintro ⟨n, hn⟩
  have hfix : evictStep (New cfgNeg) = New cfgNeg := by
    simp [evictStep, lruRemoveOldest, New]
  rw [Function.iterate_fixed hfix n] at hn
  exact absurd hn (by decide)

end Vellum
